import Mathlib

/-!
Verification of django-fieldsignals (src/fieldsignals/signals.py).

We give a shallow embedding of the change-detection engine:

* Python objects live in an explicit heap (`Heap`), addressed by `Addr`;
  every field value held by an instance is a reference into the heap.
  In-place mutation of an object is `Heap.set`; rebinding an attribute of an
  instance replaces the address in `Instance.attrs`.
* `PVal` is the universe of object contents relevant to the library:
  None, int, float, str, tuple, frozenset, list, datetime.  Container
  payloads are flat scalars, which is all the code under verification ever
  distinguishes (it only tests the outermost type against
  IMMUTABLE_TYPES_WHITELIST and compares values for equality).
* A Django field's `to_python` either returns its argument unchanged (the
  base `Field.to_python`) or constructs a new object from the argument's
  content (e.g. `DateTimeField.to_python` parsing a string); we model it as
  `PVal → Option PVal` where `Option.none` means "return the argument
  itself" and `some v` means "return a freshly allocated object with
  content v".
* `copy.deepcopy` is modelled as allocating a fresh cell holding the same
  content (cells are flat, so deep copy and shallow copy coincide; Python
  returns atomic immutables unchanged, which is indistinguishable here
  because no theorem mutates an atomic cell).
* Python `dict`s keyed by strings (the per-instance snapshot
  `_fieldsignals_originals[key]` and the returned `changed_fields`) are
  association lists with update-in-place semantics (`aset`/`alookup`);
  `originals.get(field.name, None)` returning the default `None` is encoded
  as `Option.none`.
-/

abbrev Addr := Nat

/-- Scalar object contents (elements of containers). -/
inductive PScalar where
  | snone
  | sint (n : Int)
  | sstr (s : String)
  | sdt (t : Nat)
  deriving DecidableEq, Repr

/-- Contents of a Python object, as far as the library observes them. -/
inductive PVal where
  | pynone
  | pyint (n : Int)
  | pyfloat (q : Int)
  | pystr (s : String)
  | pytuple (xs : List PScalar)
  | pyfrozenset (xs : List PScalar)
  | pylist (xs : List PScalar)
  | pydt (t : Nat)
  deriving DecidableEq, Repr

/-- The heap: a store of object contents plus an allocation bound.
All live addresses are below `next`; `alloc` hands out `next`. -/
structure Heap where
  cells : Addr → PVal
  next : Addr

def Heap.get (h : Heap) (a : Addr) : PVal := h.cells a

/-- In-place mutation of the object at address `a` (e.g. list mutation). -/
def Heap.set (h : Heap) (a : Addr) (v : PVal) : Heap :=
  { cells := fun x => if x = a then v else h.cells x, next := h.next }

/-- Allocate a fresh object with content `v`. -/
def Heap.alloc (h : Heap) (v : PVal) : Addr × Heap :=
  (h.next, { cells := fun x => if x = h.next then v else h.cells x, next := h.next + 1 })

theorem Heap.get_set_self (h : Heap) (a : Addr) (v : PVal) : (h.set a v).get a = v := by
  simp [Heap.get, Heap.set]

theorem Heap.get_set_ne (h : Heap) (a b : Addr) (v : PVal) (hne : b ≠ a) :
    (h.set a v).get b = h.get b := by
  simp [Heap.get, Heap.set, hne]

theorem Heap.get_alloc_lt (h : Heap) (v : PVal) (a : Addr) (ha : a < h.next) :
    (h.alloc v).2.get a = h.get a := by
  simp [Heap.get, Heap.alloc, Nat.ne_of_lt ha]

theorem Heap.get_alloc_self (h : Heap) (v : PVal) : (h.alloc v).2.get (h.alloc v).1 = v := by
  simp [Heap.get, Heap.alloc]

theorem Heap.alloc_next (h : Heap) (v : PVal) : (h.alloc v).2.next = h.next + 1 := rfl

theorem Heap.alloc_fst (h : Heap) (v : PVal) : (h.alloc v).1 = h.next := rfl

/-- Association-list lookup (Python `dict.get(k, None)` as `Option`). -/
def alookup {α β : Type} [DecidableEq α] (m : List (α × β)) (k : α) : Option β :=
  match m with
  | [] => Option.none
  | (k2, v) :: rest => if k2 = k then some v else alookup rest k

/-- Association-list update (Python `dict[k] = v`). -/
def aset {α β : Type} [DecidableEq α] (m : List (α × β)) (k : α) (v : β) : List (α × β) :=
  match m with
  | [] => [(k, v)]
  | (k2, v2) :: rest => if k2 = k then (k, v) :: rest else (k2, v2) :: aset rest k v

theorem alookup_aset_self {α β : Type} [DecidableEq α] (m : List (α × β)) (k : α) (v : β) :
    alookup (aset m k v) k = some v := by
  induction m with
  | nil => simp [alookup, aset]
  | cons p rest ih =>
    by_cases h : p.1 = k
    · simp [alookup, aset, h]
    · simp [alookup, aset, h, ih]

theorem alookup_aset_ne {α β : Type} [DecidableEq α] (m : List (α × β)) (k k2 : α) (v : β)
    (hne : k2 ≠ k) : alookup (aset m k v) k2 = alookup m k2 := by
  have hkk : k ≠ k2 := fun h => hne h.symm
  induction m with
  | nil => simp [alookup, aset, hkk]
  | cons p rest ih =>
    by_cases h : p.1 = k
    · subst h
      simp [alookup, aset, hkk]
    · by_cases h2 : p.1 = k2
      · subst h2
        simp [alookup, aset, h]
      · simp [alookup, aset, h, h2, ih]

theorem mem_aset {α β : Type} [DecidableEq α] (m : List (α × β)) (k : α) (v : β) (p : α × β)
    (hp : p ∈ aset m k v) : p ∈ m ∨ p = (k, v) := by
  induction m with
  | nil => simpa [aset] using hp
  | cons q rest ih =>
    by_cases h : q.1 = k
    · simp only [aset, h, if_pos] at hp
      rcases List.mem_cons.mp hp with h1 | h1
      · exact Or.inr h1
      · exact Or.inl (List.mem_cons_of_mem _ h1)
    · simp only [aset, h, if_neg, not_false_iff] at hp
      rcases List.mem_cons.mp hp with h1 | h1
      · exact Or.inl (h1 ▸ List.mem_cons_self _ _)
      · rcases ih h1 with h2 | h2
        · exact Or.inl (List.mem_cons_of_mem _ h2)
        · exact Or.inr h2

/-- A declared field descriptor, as the library consumes it
(name, attname, relationship flags, `to_python`).  `to_python` returning
`Option.none` means "return the argument object itself";
`some v` means "construct and return a new object with content `v`". -/
structure DField where
  name : String
  attname : String
  many_to_many : Bool
  one_to_many : Bool
  isForeignObjectRel : Bool
  to_python : PVal → Option PVal

/-- Content-level result of `field.to_python(value)`. -/
def normContent (f : DField) (v : PVal) : PVal := (f.to_python v).getD v

/-- Reference-level `field.to_python(raw)`: either the same reference, or a
fresh allocation holding the converted content. -/
def runToPython (f : DField) (h : Heap) (a : Addr) : Addr × Heap :=
  match f.to_python (h.get a) with
  | Option.none => (a, h)
  | some v => h.alloc v

/-- `isinstance(v, IMMUTABLE_TYPES_WHITELIST)` for
IMMUTABLE_TYPES_WHITELIST = (tuple, frozenset, float, str, int). -/
def isinstance_IMMUTABLE_TYPES_WHITELIST : PVal → Bool
  | .pytuple _ => true
  | .pyfrozenset _ => true
  | .pyfloat _ => true
  | .pystr _ => true
  | .pyint _ => true
  | _ => false

/-- `copy.deepcopy`: a fresh object with the same content (cells are flat). -/
def pydeepcopy (h : Heap) (a : Addr) : Addr × Heap := h.alloc (h.get a)

/-- A per-(signal, receiver) snapshot: field name → stored reference
(`instance._fieldsignals_originals[key]`). -/
abbrev OrigMap := List (String × Addr)

/-- The `_fieldsignals_originals` key `(id(self), id(receiver))`. -/
abbrev OKey := Nat × Nat

/-- A model instance: attribute bindings (references into the heap), the
result of `get_deferred_fields()`, and `_fieldsignals_originals`. -/
structure Instance where
  attrs : String → Addr
  get_deferred_fields : List String
  fieldsignals_originals : List (OKey × OrigMap)

/-- `originals.get(field.name, None)`: the content the old reference denotes,
with the absent-key default `None`. -/
def oldContent (h : Heap) : Option Addr → PVal
  | Option.none => .pynone
  | some a => h.get a

/-- State threaded through the loop of `get_and_update_changed_fields`:
the snapshot dict being updated, the accumulating `changed_fields` dict
(pairs are (old reference or None, new reference)), and the heap. -/
structure DiffState where
  originals : OrigMap
  changed_fields : List (String × (Option Addr × Addr))
  heap : Heap

/-- The comparison-and-store tail of one loop iteration of
`ChangedSignal.get_and_update_changed_fields`, once `new_value` has been
computed (`r` is the reference/heap pair `to_python` returned) and
`old_value = originals.get(field.name, None)` has been read. -/
def applyDiff (s : DiffState) (field : DField) (old : Option Addr) (r : Addr × Heap) : DiffState :=
  if oldContent r.2 old ≠ r.2.get r.1 then
    -- if not isinstance(new_value, IMMUTABLE_TYPES_WHITELIST): new_value = deepcopy(new_value)
    let r2 := if isinstance_IMMUTABLE_TYPES_WHITELIST (r.2.get r.1) then (r.1, r.2)
              else pydeepcopy r.2 r.1
    -- changed_fields[field.name] = (old_value, new_value); originals[field.name] = new_value
    { originals := aset s.originals field.name r2.1,
      changed_fields := aset s.changed_fields field.name (old, r2.1),
      heap := r2.2 }
  else { s with heap := r.2 }

/-- One iteration of the `for field in fields` loop in
`ChangedSignal.get_and_update_changed_fields`:
skip deferred fields, compute
`new_value = field.to_python(field.value_from_object(instance))`, then
compare and store. -/
def processField (inst : Instance) (s : DiffState) (field : DField) : DiffState :=
  if field.attname ∈ inst.get_deferred_fields then s
  else
    applyDiff s field (alookup s.originals field.name)
      (runToPython field s.heap (inst.attrs field.name))

/-- `ChangedSignal.get_and_update_changed_fields(self, receiver, instance, fields)`.
`signalId`/`receiverId` stand for `id(self)`/`id(receiver)`.  Returns the
`changed_fields` dict together with the updated instance and heap. -/
def get_and_update_changed_fields (signalId receiverId : Nat) (inst : Instance)
    (fields : List DField) (h : Heap) :
    List (String × (Option Addr × Addr)) × Instance × Heap :=
  let key : OKey := (signalId, receiverId)
  -- originals = instance._fieldsignals_originals.setdefault(key, {})  (lines 131-135)
  let originals := (alookup inst.fieldsignals_originals key).getD []
  let s := (fields.foldl (processField inst) ⟨originals, [], h⟩)
  (s.changed_fields,
   { inst with fieldsignals_originals := aset inst.fieldsignals_originals key s.originals },
   s.heap)

/-- The proxy receiver `pr` built by `ChangedSignal._make_proxy_receiver`:
runs the diff and invokes the original receiver (returning `some
changed_fields`) exactly when `changed_fields` is truthy (non-empty). -/
def proxyReceiver (signalId receiverId : Nat) (fields : List DField)
    (inst : Instance) (h : Heap) :
    Option (List (String × (Option Addr × Addr))) × Instance × Heap :=
  let r := get_and_update_changed_fields signalId receiverId inst fields h
  ((if r.1.isEmpty then Option.none else some r.1), r.2.1, r.2.2)

/-- The `post_init_closure` connected in `ChangedSignal.connect`: primes the
snapshot, discarding the returned dict. -/
def post_init_closure (signalId receiverId : Nat) (fields : List DField)
    (inst : Instance) (h : Heap) : Instance × Heap :=
  (get_and_update_changed_fields signalId receiverId inst fields h).2

/-- A sender as `ChangedSignal.connect` sees it: whether it is a class
(`isinstance(sender, type)`), its identity (`id(sender)`), and its declared
fields (`sender._meta.get_fields()`). -/
structure Sender where
  isClass : Bool
  id : Nat
  meta_get_fields : List DField

/-- The errors `ChangedSignal.connect` can raise, by site:
`AppRegistryNotReady`, `NotImplementedError` for weak refs, and the three
`ValueError`s. -/
inductive ConnectError where
  | appRegistryNotReady
  | weakNotSupported
  | senderNotClass
  | reverseRelField (name : String)
  | emptyFields
  deriving DecidableEq, Repr

/-- `is_reverse_rel(f)` from `ChangedSignal.connect`. -/
def is_reverse_rel (f : DField) : Bool :=
  f.many_to_many || f.one_to_many || f.isForeignObjectRel

/-- The field-resolution block of `ChangedSignal.connect` (lines 51-64):
either all non-reverse declared fields, or the declared fields whose name is
in the requested set, raising on the first reverse-related one. -/
def resolveFields (sender : Sender) (fieldNames : Option (List String)) :
    Except ConnectError (List DField) :=
  match fieldNames with
  | Option.none =>
    Except.ok (sender.meta_get_fields.filter (fun f => !is_reverse_rel f))
  | some names =>
    let fs := sender.meta_get_fields.filter (fun f => f.name ∈ names)
    match fs.find? (fun f => is_reverse_rel f) with
    | some f => Except.error (ConnectError.reverseRelField f.name)
    | Option.none => Except.ok fs

/-- One receiver registered on a Django `Signal`: the dispatch lookup uid (if
given), the identity of the connected function object, the sender id, the
original receiver's id and the resolved field list the closure captured. -/
structure ReceiverEntry where
  lookupUid : Option (Nat × Nat)
  closureId : Nat
  senderId : Nat
  receiverId : Nat
  fields : List DField

/-- Django's `Signal.connect` lookup key: `(dispatch_uid or id(receiver),
id(sender))`; a uid (a tuple) never equals a bare function id. -/
def entryKey (e : ReceiverEntry) : Sum Nat (Nat × Nat) × Nat :=
  (match e.lookupUid with
   | some u => Sum.inr u
   | Option.none => Sum.inl e.closureId, e.senderId)

/-- Django `Signal.connect` semantics: appending the receiver unless a
receiver with the same lookup key is already present (then it is silently
skipped, never an error). -/
def signalConnect (rs : List ReceiverEntry) (e : ReceiverEntry) : List ReceiverEntry :=
  if rs.any (fun r => decide (entryKey r = entryKey e)) then rs else rs ++ [e]

/-- `pre_save.connect(self._on_model_pre_save, sender, dispatch_uid=id(self))`
(and the post_save analogue): entries are (signal id, sender id) pairs with
the same dedupe rule. -/
def sourceConnect (rs : List (Nat × Nat)) (e : Nat × Nat) : List (Nat × Nat) :=
  if e ∈ rs then rs else rs ++ [e]

/-- The registration state touched by one `ChangedSignal`: its own receiver
list, the `post_init` receiver list, the source-signal (pre/post save)
receiver list, and a counter producing fresh closure identities. -/
structure ChannelState where
  chanReceivers : List ReceiverEntry
  postInitReceivers : List ReceiverEntry
  sourceReceivers : List (Nat × Nat)
  nextClosureId : Nat

/-- `ChangedSignal.connect(self, receiver, sender, fields, dispatch_uid,
**kwargs)`, threading the registration state even through the error paths so
that "no partial registration" is a statement, not a convention.
Checks appear in source order: `apps.models_ready`, the `weak` kwarg,
`isinstance(sender, type)`, field resolution, the non-empty check; then the
proxy is connected on this signal, the post_init closure is connected with
`dispatch_uid=(self, receiver)`, and `connect_source_signals` runs. -/
def connectR (signalId : Nat) (models_ready : Bool) (receiverId : Nat)
    (sender : Sender) (fieldNames : Option (List String)) (weak : Bool)
    (dispatch_uid : Option (Nat × Nat)) (st : ChannelState) :
    Except ConnectError Unit × ChannelState :=
  if !models_ready then (Except.error ConnectError.appRegistryNotReady, st)
  else if weak then (Except.error ConnectError.weakNotSupported, st)
  else if !sender.isClass then (Except.error ConnectError.senderNotClass, st)
  else
    match resolveFields sender fieldNames with
    | Except.error e => (Except.error e, st)
    | Except.ok fs =>
      if fs.isEmpty then (Except.error ConnectError.emptyFields, st)
      else
        let proxy : ReceiverEntry :=
          ⟨dispatch_uid, st.nextClosureId, sender.id, receiverId, fs⟩
        let st1 : ChannelState :=
          { st with chanReceivers := signalConnect st.chanReceivers proxy,
                    nextClosureId := st.nextClosureId + 1 }
        let postE : ReceiverEntry :=
          ⟨some (signalId, receiverId), st1.nextClosureId, sender.id, receiverId, fs⟩
        let st2 : ChannelState :=
          { st1 with postInitReceivers := signalConnect st1.postInitReceivers postE,
                     nextClosureId := st1.nextClosureId + 1 }
        let st3 : ChannelState :=
          { st2 with sourceReceivers := sourceConnect st2.sourceReceivers (signalId, sender.id) }
        (Except.ok (), st3)


theorem alookup_mem {α β : Type} [DecidableEq α] (m : List (α × β)) (k : α) (v : β)
    (h : alookup m k = some v) : (k, v) ∈ m := by
  induction m with
  | nil => simp [alookup] at h
  | cons p rest ih =>
    obtain ⟨k2, v2⟩ := p
    by_cases hk : k2 = k
    · subst hk
      simp only [alookup, if_true, Option.some.injEq, eq_self_iff_true] at h
      rw [← h]
      exact List.mem_cons_self _ _
    · simp only [alookup, if_neg hk] at h
      exact List.mem_cons_of_mem _ (ih h)

theorem alookup_nil_of_forall {α β : Type} [DecidableEq α] (m : List (α × β))
    (h : ∀ k, alookup m k = Option.none) : m = [] := by
  cases m with
  | nil => rfl
  | cons p rest =>
    have := h p.1
    simp [alookup] at this

/-- Behaviour of the reference-level `to_python` at a live address. -/
theorem runToPython_spec (f : DField) (h : Heap) (a : Addr) (ha : a < h.next) :
    (runToPython f h a).2.get (runToPython f h a).1 = normContent f (h.get a) ∧
    h.next ≤ (runToPython f h a).2.next ∧
    (∀ b, b < h.next → (runToPython f h a).2.get b = h.get b) ∧
    (runToPython f h a).1 < (runToPython f h a).2.next := by
  unfold runToPython normContent
  cases hf : f.to_python (h.get a) with
  | none =>
    refine ⟨rfl, le_refl _, fun b _ => rfl, ha⟩
  | some v =>
    refine ⟨Heap.get_alloc_self h v, ?_, ?_, ?_⟩
    · simp [Heap.alloc]
    · intro b hb; exact Heap.get_alloc_lt h v b hb
    · simp [Heap.alloc]

/-- Full characterization of one loop iteration of
`get_and_update_changed_fields`, relative to the pre-state. -/
theorem processField_spec (inst : Instance) (s s2 : DiffState) (f : DField)
    (hA : ∀ n, inst.attrs n < s.heap.next)
    (hO : ∀ p ∈ s.originals, p.2 < s.heap.next)
    (hs : s2 = processField inst s f) :
    (s.heap.next ≤ s2.heap.next) ∧
    (∀ a, a < s.heap.next → s2.heap.get a = s.heap.get a) ∧
    (∀ p ∈ s2.originals, p.2 < s2.heap.next) ∧
    ((∀ p ∈ s.changed_fields, p.2.2 < s.heap.next) →
      ∀ p ∈ s2.changed_fields, p.2.2 < s2.heap.next) ∧
    (∀ n, n ≠ f.name →
      alookup s2.originals n = alookup s.originals n ∧
      alookup s2.changed_fields n = alookup s.changed_fields n) ∧
    (f.attname ∈ inst.get_deferred_fields →
      s2.originals = s.originals ∧ s2.changed_fields = s.changed_fields) ∧
    (f.attname ∉ inst.get_deferred_fields →
      oldContent s.heap (alookup s.originals f.name) =
        normContent f (s.heap.get (inst.attrs f.name)) →
      s2.originals = s.originals ∧ s2.changed_fields = s.changed_fields) ∧
    (f.attname ∉ inst.get_deferred_fields →
      oldContent s.heap (alookup s.originals f.name) ≠
        normContent f (s.heap.get (inst.attrs f.name)) →
      ∃ a, alookup s2.originals f.name = some a ∧
        alookup s2.changed_fields f.name = some (alookup s.originals f.name, a) ∧
        s2.heap.get a = normContent f (s.heap.get (inst.attrs f.name)) ∧
        a < s2.heap.next ∧
        (isinstance_IMMUTABLE_TYPES_WHITELIST
            (normContent f (s.heap.get (inst.attrs f.name))) = false →
          s.heap.next ≤ a)) := by
  by_cases hdef : f.attname ∈ inst.get_deferred_fields
  · have hs2 : s2 = s := by rw [hs]; simp [processField, hdef]
    subst hs2
    refine ⟨le_refl _, fun a _ => rfl, hO, fun hc => hc, fun n _ => ⟨rfl, rfl⟩,
      fun _ => ⟨rfl, rfl⟩, fun hd _ => absurd hdef hd, fun hd _ => absurd hdef hd⟩
  · obtain ⟨hr1, hr2, hr3, hr4⟩ :=
      runToPython_spec f s.heap (inst.attrs f.name) (hA f.name)
    have hs2 : s2 = applyDiff s f (alookup s.originals f.name)
        (runToPython f s.heap (inst.attrs f.name)) := by
      rw [hs]; simp only [processField, if_neg hdef]
    generalize hR : runToPython f s.heap (inst.attrs f.name) = r at hr1 hr2 hr3 hr4 hs2
    -- the comparison the code makes, rewritten to the pre-state heap
    have holdc : oldContent r.2 (alookup s.originals f.name) =
        oldContent s.heap (alookup s.originals f.name) := by
      cases hold : alookup s.originals f.name with
      | none => rfl
      | some b =>
        have hb : b < s.heap.next := hO _ (alookup_mem _ _ _ hold)
        simp [oldContent, hr3 b hb]
    by_cases hchg : oldContent r.2 (alookup s.originals f.name) = r.2.get r.1
    · -- unchanged: only the heap advanced (possible to_python allocation)
      have happ : s2 = { s with heap := r.2 } := by
        rw [hs2]
        simp only [applyDiff]
        rw [if_neg (not_not_intro hchg)]
      subst happ
      have hcontra : oldContent s.heap (alookup s.originals f.name) =
          normContent f (s.heap.get (inst.attrs f.name)) := by
        rw [← holdc, hchg, hr1]
      refine ⟨hr2, hr3, ?_, ?_, fun n _ => ⟨rfl, rfl⟩, fun hd => absurd hd hdef,
        fun _ _ => ⟨rfl, rfl⟩, fun _ hne => absurd hcontra hne⟩
      · intro p hp; exact lt_of_lt_of_le (hO p hp) hr2
      · intro hc p hp; exact lt_of_lt_of_le (hc p hp) hr2
    · -- changed: store a (possibly deep-copied) reference to the new value
      have hchg2 : oldContent s.heap (alookup s.originals f.name) ≠
          normContent f (s.heap.get (inst.attrs f.name)) := by
        rw [← holdc, ← hr1]; exact hchg
      by_cases hwl : isinstance_IMMUTABLE_TYPES_WHITELIST (r.2.get r.1) = true
      · have happ : s2 = DiffState.mk (aset s.originals f.name r.1)
            (aset s.changed_fields f.name (alookup s.originals f.name, r.1)) r.2 := by
          rw [hs2]
          simp only [applyDiff]
          rw [if_pos hchg, if_pos hwl]
        subst happ
        refine ⟨hr2, hr3, ?_, ?_, ?_, fun hd => absurd hd hdef,
          fun _ heq => absurd heq hchg2, fun _ _ => ⟨r.1, ?_, ?_, hr1, hr4, ?_⟩⟩
        · intro p hp
          rcases mem_aset _ _ _ _ hp with hp2 | hp2
          · exact lt_of_lt_of_le (hO p hp2) hr2
          · rw [hp2]; exact hr4
        · intro hc p hp
          rcases mem_aset _ _ _ _ hp with hp2 | hp2
          · exact lt_of_lt_of_le (hc p hp2) hr2
          · rw [hp2]; exact hr4
        · intro n hn
          exact ⟨alookup_aset_ne _ _ _ _ hn, alookup_aset_ne _ _ _ _ hn⟩
        · exact alookup_aset_self _ _ _
        · exact alookup_aset_self _ _ _
        · intro hwl2
          rw [← hr1] at hwl2
          rw [hwl2] at hwl
          exact absurd hwl (by simp)
      · -- deepcopy branch: fresh cell at r.2.next
        have happ : s2 = DiffState.mk (aset s.originals f.name (pydeepcopy r.2 r.1).1)
            (aset s.changed_fields f.name (alookup s.originals f.name, (pydeepcopy r.2 r.1).1))
            (pydeepcopy r.2 r.1).2 := by
          rw [hs2]
          simp only [applyDiff]
          rw [if_pos hchg, if_neg hwl]
        subst happ
        have hfst : (pydeepcopy r.2 r.1).1 = r.2.next := rfl
        have hnext : (pydeepcopy r.2 r.1).2.next = r.2.next + 1 := rfl
        have hgetnew : (pydeepcopy r.2 r.1).2.get (pydeepcopy r.2 r.1).1 = r.2.get r.1 :=
          Heap.get_alloc_self r.2 (r.2.get r.1)
        have hpres : ∀ b, b < r.2.next → (pydeepcopy r.2 r.1).2.get b = r.2.get b :=
          fun b hb => Heap.get_alloc_lt r.2 (r.2.get r.1) b hb
        have hmono : s.heap.next ≤ (pydeepcopy r.2 r.1).2.next := by
          simp only [hnext]
          exact le_trans hr2 (Nat.le_succ _)
        have hltnext : (pydeepcopy r.2 r.1).1 < (pydeepcopy r.2 r.1).2.next := by
          simp only [hfst, hnext]
          exact Nat.lt_succ_self _
        have hge : s.heap.next ≤ (pydeepcopy r.2 r.1).1 := by
          simp only [hfst]; exact hr2
        refine ⟨hmono, ?_, ?_, ?_, ?_, fun hd => absurd hd hdef,
          fun _ heq => absurd heq hchg2,
          fun _ _ => ⟨(pydeepcopy r.2 r.1).1, ?_, ?_, ?_, hltnext, fun _ => hge⟩⟩
        · intro a ha
          exact (hpres a (lt_of_lt_of_le ha hr2)).trans (hr3 a ha)
        · intro p hp
          rcases mem_aset _ _ _ _ hp with hp2 | hp2
          · exact lt_of_lt_of_le (hO p hp2) hmono
          · rw [hp2]; exact hltnext
        · intro hc p hp
          rcases mem_aset _ _ _ _ hp with hp2 | hp2
          · exact lt_of_lt_of_le (hc p hp2) hmono
          · rw [hp2]; exact hltnext
        · intro n hn
          exact ⟨alookup_aset_ne _ _ _ _ hn, alookup_aset_ne _ _ _ _ hn⟩
        · exact alookup_aset_self _ _ _
        · exact alookup_aset_self _ _ _
        · rw [hgetnew, hr1]

/-- Characterization of the whole `for field in fields` loop of
`get_and_update_changed_fields`, relative to the loop's initial state:
heap growth and preservation, snapshot/changeset well-formedness, and the
per-field-name contents of the updated snapshot and of `changed_fields`. -/
theorem foldl_processField_spec (inst : Instance) (fields : List DField) :
    ∀ (s s2 : DiffState),
    (∀ n, inst.attrs n < s.heap.next) →
    (∀ p ∈ s.originals, p.2 < s.heap.next) →
    (∀ p ∈ s.changed_fields, p.2.2 < s.heap.next) →
    (fields.map DField.name).Nodup →
    s2 = fields.foldl (processField inst) s →
    (s.heap.next ≤ s2.heap.next) ∧
    (∀ a, a < s.heap.next → s2.heap.get a = s.heap.get a) ∧
    (∀ p ∈ s2.originals, p.2 < s2.heap.next) ∧
    (∀ p ∈ s2.changed_fields, p.2.2 < s2.heap.next) ∧
    (∀ n, n ∉ fields.map DField.name →
      alookup s2.originals n = alookup s.originals n ∧
      alookup s2.changed_fields n = alookup s.changed_fields n) ∧
    (∀ f ∈ fields,
      (f.attname ∈ inst.get_deferred_fields →
        alookup s2.originals f.name = alookup s.originals f.name ∧
        alookup s2.changed_fields f.name = alookup s.changed_fields f.name) ∧
      (f.attname ∉ inst.get_deferred_fields →
        oldContent s.heap (alookup s.originals f.name) =
          normContent f (s.heap.get (inst.attrs f.name)) →
        alookup s2.originals f.name = alookup s.originals f.name ∧
        alookup s2.changed_fields f.name = alookup s.changed_fields f.name) ∧
      (f.attname ∉ inst.get_deferred_fields →
        oldContent s.heap (alookup s.originals f.name) ≠
          normContent f (s.heap.get (inst.attrs f.name)) →
        ∃ a, alookup s2.originals f.name = some a ∧
          alookup s2.changed_fields f.name = some (alookup s.originals f.name, a) ∧
          s2.heap.get a = normContent f (s.heap.get (inst.attrs f.name)) ∧
          a < s2.heap.next ∧
          (isinstance_IMMUTABLE_TYPES_WHITELIST
              (normContent f (s.heap.get (inst.attrs f.name))) = false →
            s.heap.next ≤ a))) := by
  induction fields with
  | nil =>
    intro s s2 hA hO hC hND hfold
    rw [List.foldl_nil] at hfold
    subst hfold
    exact ⟨le_refl _, fun a _ => rfl, hO, hC, fun n _ => ⟨rfl, rfl⟩, fun f hf => absurd hf (by simp)⟩
  | cons f rest ih =>
    intro s s2 hA hO hC hND hfold
    rw [List.foldl_cons] at hfold
    obtain ⟨st1, st2, st3, st4, st5, st6, st7, st8⟩ :=
      processField_spec inst s (processField inst s f) f hA hO rfl
    have hNDc : f.name ∉ rest.map DField.name ∧ (rest.map DField.name).Nodup := by
      rw [List.map_cons] at hND
      exact List.nodup_cons.mp hND
    have hname : f.name ∉ rest.map DField.name := hNDc.1
    have hND2 : (rest.map DField.name).Nodup := hNDc.2
    have hA1 : ∀ n, inst.attrs n < (processField inst s f).heap.next :=
      fun n => lt_of_lt_of_le (hA n) st1
    obtain ⟨ih1, ih2, ih3, ih4, ih5, ih6⟩ :=
      ih (processField inst s f) s2 hA1 st3 (st4 hC) hND2 hfold
    refine ⟨le_trans st1 ih1, ?_, ih3, ih4, ?_, ?_⟩
    · intro a ha
      exact (ih2 a (lt_of_lt_of_le ha st1)).trans (st2 a ha)
    · intro n hn
      have hn1 : n ≠ f.name := by
        intro h; apply hn; rw [h]; simp
      have hn2 : n ∉ rest.map DField.name := by
        intro h; apply hn; simp [h]
      obtain ⟨e1, e2⟩ := ih5 n hn2
      obtain ⟨e3, e4⟩ := st5 n hn1
      exact ⟨e1.trans e3, e2.trans e4⟩
    · intro g hg
      rcases List.mem_cons.mp hg with hgf | hgr
      · subst hgf
        obtain ⟨e1, e2⟩ := ih5 g.name hname
        refine ⟨?_, ?_, ?_⟩
        · intro hdef
          obtain ⟨q1, q2⟩ := st6 hdef
          exact ⟨e1.trans (by rw [q1]), e2.trans (by rw [q2])⟩
        · intro hdef heq
          obtain ⟨q1, q2⟩ := st7 hdef heq
          exact ⟨e1.trans (by rw [q1]), e2.trans (by rw [q2])⟩
        · intro hdef hne
          obtain ⟨a, q1, q2, q3, q4, q5⟩ := st8 hdef hne
          refine ⟨a, e1.trans q1, e2.trans q2, ?_, lt_of_lt_of_le q4 ih1, q5⟩
          exact (ih2 a q4).trans q3
      · have hgname : g.name ≠ f.name := by
          intro h
          exact hname (h ▸ List.mem_map_of_mem DField.name hgr)
        obtain ⟨e1, e2⟩ := st5 g.name hgname
        have e4 : (processField inst s f).heap.get (inst.attrs g.name) =
            s.heap.get (inst.attrs g.name) := st2 _ (hA g.name)
        have e3 : oldContent (processField inst s f).heap
            (alookup (processField inst s f).originals g.name) =
            oldContent s.heap (alookup s.originals g.name) := by
          rw [e1]
          cases hold : alookup s.originals g.name with
          | none => rfl
          | some b =>
            have hb : b < s.heap.next := hO _ (alookup_mem _ _ _ hold)
            simp [oldContent, st2 b hb]
        obtain ⟨w1, w2, w3⟩ := ih6 g hgr
        refine ⟨?_, ?_, ?_⟩
        · intro hdef
          obtain ⟨q1, q2⟩ := w1 hdef
          exact ⟨q1.trans e1, q2.trans e2⟩
        · intro hdef heq
          obtain ⟨q1, q2⟩ := w2 hdef (by rw [e3, e4]; exact heq)
          exact ⟨q1.trans e1, q2.trans e2⟩
        · intro hdef hne
          obtain ⟨a, q1, q2, q3, q4, q5⟩ := w3 hdef (by rw [e3, e4]; exact hne)
          refine ⟨a, q1, ?_, ?_, q4, ?_⟩
          · rw [q2, e1]
          · rw [q3, e4]
          · intro hwl
            rw [e4] at q5
            exact le_trans st1 (q5 hwl)

/-- Well-formedness of an instance against a heap: every reference it holds
(attribute values and snapshot entries) is a live address. -/
def InstWF (inst : Instance) (h : Heap) : Prop :=
  (∀ n, inst.attrs n < h.next) ∧
  (∀ p ∈ inst.fieldsignals_originals, ∀ q ∈ p.2, q.2 < h.next)

/-- The content-level "old value" the diff uses for `f` under snapshot key
`key`: the stored snapshot value, or None when absent. -/
def snapshotOld (inst : Instance) (h : Heap) (key : OKey) (f : DField) : PVal :=
  oldContent h (alookup ((alookup inst.fieldsignals_originals key).getD []) f.name)

/-- The content-level normalized "new value" of `f` on the instance:
`field.to_python(field.value_from_object(instance))`. -/
def normalizedNew (inst : Instance) (h : Heap) (f : DField) : PVal :=
  normContent f (h.get (inst.attrs f.name))

theorem orig0_WF (inst : Instance) (h : Heap) (key : OKey)
    (hW : ∀ p ∈ inst.fieldsignals_originals, ∀ q ∈ p.2, q.2 < h.next) :
    ∀ q ∈ (alookup inst.fieldsignals_originals key).getD ([] : OrigMap), q.2 < h.next := by
  cases hk : alookup inst.fieldsignals_originals key with
  | none => simp
  | some m =>
    intro q hq
    simp only [Option.getD] at hq
    exact hW _ (alookup_mem _ _ _ hk) q hq

/-- `get_and_update_changed_fields`, unfolded to its loop. -/
theorem get_and_update_eq (sid rid : Nat) (inst : Instance) (fields : List DField) (h : Heap) :
    get_and_update_changed_fields sid rid inst fields h =
      ((fields.foldl (processField inst)
          ⟨(alookup inst.fieldsignals_originals (sid, rid)).getD [], [], h⟩).changed_fields,
       Instance.mk inst.attrs inst.get_deferred_fields
         (aset inst.fieldsignals_originals (sid, rid)
           (fields.foldl (processField inst)
             ⟨(alookup inst.fieldsignals_originals (sid, rid)).getD [], [], h⟩).originals),
       (fields.foldl (processField inst)
          ⟨(alookup inst.fieldsignals_originals (sid, rid)).getD [], [], h⟩).heap) := rfl

/-- C1: when the channel's lifecycle event fires, the proxy receiver invokes
the original listener iff the computed change set is non-empty; when invoked,
`changed_fields` maps exactly the watched, non-deferred fields whose
normalized new value differs from the snapshot to their (old value, new
value) pairs — old value being the stored snapshot reference (None when
absent) and new value a reference holding the normalized new content; fields
outside the watched set never appear, and if no watched field's value
changed (in particular if only unwatched fields changed), the original
listener is not invoked. -/
theorem C1_proxy_invokes_iff_changed
    (sid rid : Nat) (fields : List DField) (inst : Instance) (h : Heap)
    (hWF : InstWF inst h) (hND : (fields.map DField.name).Nodup) :
    ((get_and_update_changed_fields sid rid inst fields h).1 ≠ [] →
      (proxyReceiver sid rid fields inst h).1 =
        some (get_and_update_changed_fields sid rid inst fields h).1) ∧
    ((get_and_update_changed_fields sid rid inst fields h).1 = [] →
      (proxyReceiver sid rid fields inst h).1 = Option.none) ∧
    (∀ f ∈ fields, f.attname ∉ inst.get_deferred_fields →
      ((alookup (get_and_update_changed_fields sid rid inst fields h).1 f.name ≠ Option.none) ↔
        snapshotOld inst h (sid, rid) f ≠ normalizedNew inst h f) ∧
      (snapshotOld inst h (sid, rid) f ≠ normalizedNew inst h f →
        ∃ a, alookup (get_and_update_changed_fields sid rid inst fields h).1 f.name =
            some (alookup ((alookup inst.fieldsignals_originals (sid, rid)).getD []) f.name, a) ∧
          (get_and_update_changed_fields sid rid inst fields h).2.2.get a =
            normalizedNew inst h f)) ∧
    (∀ f ∈ fields, f.attname ∈ inst.get_deferred_fields →
      alookup (get_and_update_changed_fields sid rid inst fields h).1 f.name = Option.none) ∧
    (∀ n, n ∉ fields.map DField.name →
      alookup (get_and_update_changed_fields sid rid inst fields h).1 n = Option.none) ∧
    ((∀ f ∈ fields, f.attname ∈ inst.get_deferred_fields ∨
        snapshotOld inst h (sid, rid) f = normalizedNew inst h f) →
      (proxyReceiver sid rid fields inst h).1 = Option.none) := by
  obtain ⟨hA, hB⟩ := hWF
  obtain ⟨g1, g2, g3, g4, g5, g6⟩ :=
    foldl_processField_spec inst fields
      ⟨(alookup inst.fieldsignals_originals (sid, rid)).getD [], [], h⟩
      (fields.foldl (processField inst)
        ⟨(alookup inst.fieldsignals_originals (sid, rid)).getD [], [], h⟩)
      hA (orig0_WF inst h (sid, rid) hB) (by intro p hp; simp at hp) hND rfl
  have hch : (get_and_update_changed_fields sid rid inst fields h).1 =
      (fields.foldl (processField inst)
        ⟨(alookup inst.fieldsignals_originals (sid, rid)).getD [], [], h⟩).changed_fields := rfl
  have hh : (get_and_update_changed_fields sid rid inst fields h).2.2 =
      (fields.foldl (processField inst)
        ⟨(alookup inst.fieldsignals_originals (sid, rid)).getD [], [], h⟩).heap := rfl
  have hproxy : (proxyReceiver sid rid fields inst h).1 =
      if (get_and_update_changed_fields sid rid inst fields h).1.isEmpty then Option.none
      else some (get_and_update_changed_fields sid rid inst fields h).1 := rfl
  refine ⟨?_, ?_, ?_, ?_, ?_, ?_⟩
  · intro hne
    rw [hproxy, if_neg]
    rw [List.isEmpty_iff]
    exact hne
  · intro heq
    rw [hproxy, if_pos]
    rw [List.isEmpty_iff]
    exact heq
  · intro f hf hdef
    obtain ⟨w1, w2, w3⟩ := g6 f hf
    constructor
    · constructor
      · intro hlook
        by_contra heq
        obtain ⟨q1, q2⟩ := w2 hdef heq
        rw [hch] at hlook
        exact hlook (by rw [q2]; rfl)
      · intro hne
        obtain ⟨a, q1, q2, q3, q4, q5⟩ := w3 hdef hne
        rw [hch, q2]
        simp
    · intro hne
      obtain ⟨a, q1, q2, q3, q4, q5⟩ := w3 hdef hne
      exact ⟨a, by rw [hch]; exact q2, by rw [hh]; exact q3⟩
  · intro f hf hdef
    obtain ⟨w1, w2, w3⟩ := g6 f hf
    rw [hch, (w1 hdef).2]
    rfl
  · intro n hn
    rw [hch, (g5 n hn).2]
    rfl
  · intro hall
    have hempty : (get_and_update_changed_fields sid rid inst fields h).1 = [] := by
      rw [hch]
      apply alookup_nil_of_forall
      intro k
      by_cases hk : k ∈ fields.map DField.name
      · obtain ⟨f, hf, hfk⟩ := List.mem_map.mp hk
        subst hfk
        obtain ⟨w1, w2, w3⟩ := g6 f hf
        rcases hall f hf with hdef | heq
        · rw [(w1 hdef).2]; rfl
        · by_cases hdef2 : f.attname ∈ inst.get_deferred_fields
          · rw [(w1 hdef2).2]; rfl
          · rw [(w2 hdef2 heq).2]; rfl
      · rw [(g5 k hk).2]; rfl
    rw [hproxy, if_pos]
    rw [List.isEmpty_iff]
    exact hempty

/-- C4: the diff compares the normalized new value (`to_python` of the raw
attribute value) against the snapshot, so whenever the raw value normalizes
to the snapshot's stored value — even if the raw representation itself
differs, e.g. a textual timestamp whose parse equals the stored structured
timestamp — the field is not recorded as changed; if that holds for every
watched field, no notification fires at all. -/
theorem C4_normalization_before_comparison
    (sid rid : Nat) (fields : List DField) (inst : Instance) (h : Heap)
    (hWF : InstWF inst h) (hND : (fields.map DField.name).Nodup) :
    (∀ f ∈ fields, f.attname ∉ inst.get_deferred_fields →
      normalizedNew inst h f = snapshotOld inst h (sid, rid) f →
      alookup (get_and_update_changed_fields sid rid inst fields h).1 f.name = Option.none) ∧
    ((∀ f ∈ fields, f.attname ∈ inst.get_deferred_fields ∨
        normalizedNew inst h f = snapshotOld inst h (sid, rid) f) →
      (proxyReceiver sid rid fields inst h).1 = Option.none) := by
  obtain ⟨hA, hB⟩ := hWF
  obtain ⟨g1, g2, g3, g4, g5, g6⟩ :=
    foldl_processField_spec inst fields
      ⟨(alookup inst.fieldsignals_originals (sid, rid)).getD [], [], h⟩
      (fields.foldl (processField inst)
        ⟨(alookup inst.fieldsignals_originals (sid, rid)).getD [], [], h⟩)
      hA (orig0_WF inst h (sid, rid) hB) (by intro p hp; simp at hp) hND rfl
  have hch : (get_and_update_changed_fields sid rid inst fields h).1 =
      (fields.foldl (processField inst)
        ⟨(alookup inst.fieldsignals_originals (sid, rid)).getD [], [], h⟩).changed_fields := rfl
  constructor
  · intro f hf hdef heq
    obtain ⟨w1, w2, w3⟩ := g6 f hf
    rw [hch, (w2 hdef heq.symm).2]
    rfl
  · intro hall
    have hempty : (get_and_update_changed_fields sid rid inst fields h).1 = [] := by
      rw [hch]
      apply alookup_nil_of_forall
      intro k
      by_cases hk : k ∈ fields.map DField.name
      · obtain ⟨f, hf, hfk⟩ := List.mem_map.mp hk
        subst hfk
        obtain ⟨w1, w2, w3⟩ := g6 f hf
        rcases hall f hf with hdef | heq
        · rw [(w1 hdef).2]; rfl
        · by_cases hdef2 : f.attname ∈ inst.get_deferred_fields
          · rw [(w1 hdef2).2]; rfl
          · rw [(w2 hdef2 heq.symm).2]; rfl
      · rw [(g5 k hk).2]; rfl
    have hproxy : (proxyReceiver sid rid fields inst h).1 =
        if (get_and_update_changed_fields sid rid inst fields h).1.isEmpty then Option.none
        else some (get_and_update_changed_fields sid rid inst fields h).1 := rfl
    rw [hproxy, if_pos]
    rw [List.isEmpty_iff]
    exact hempty

/-- C6: a tracked field the instance reports as deferred is skipped
entirely by the diff: it appears neither in the returned `changed_fields`
nor in the updated snapshot (its snapshot entry is exactly what it was
before the call — in particular absent after initialization). -/
theorem C6_deferred_fields_skipped
    (sid rid : Nat) (fields : List DField) (inst : Instance) (h : Heap)
    (hWF : InstWF inst h) (hND : (fields.map DField.name).Nodup) :
    ∀ f ∈ fields, f.attname ∈ inst.get_deferred_fields →
      alookup (get_and_update_changed_fields sid rid inst fields h).1 f.name = Option.none ∧
      alookup ((alookup (get_and_update_changed_fields sid rid inst fields h).2.1.fieldsignals_originals
          (sid, rid)).getD []) f.name =
        alookup ((alookup inst.fieldsignals_originals (sid, rid)).getD []) f.name := by
  obtain ⟨hA, hB⟩ := hWF
  obtain ⟨g1, g2, g3, g4, g5, g6⟩ :=
    foldl_processField_spec inst fields
      ⟨(alookup inst.fieldsignals_originals (sid, rid)).getD [], [], h⟩
      (fields.foldl (processField inst)
        ⟨(alookup inst.fieldsignals_originals (sid, rid)).getD [], [], h⟩)
      hA (orig0_WF inst h (sid, rid) hB) (by intro p hp; simp at hp) hND rfl
  intro f hf hdef
  obtain ⟨w1, w2, w3⟩ := g6 f hf
  constructor
  · have hch : (get_and_update_changed_fields sid rid inst fields h).1 =
        (fields.foldl (processField inst)
          ⟨(alookup inst.fieldsignals_originals (sid, rid)).getD [], [], h⟩).changed_fields := rfl
    rw [hch, (w1 hdef).2]
    rfl
  · have hng : (get_and_update_changed_fields sid rid inst fields h).2.1.fieldsignals_originals =
        aset inst.fieldsignals_originals (sid, rid)
          (fields.foldl (processField inst)
            ⟨(alookup inst.fieldsignals_originals (sid, rid)).getD [], [], h⟩).originals := rfl
    rw [hng, alookup_aset_self]
    exact (w1 hdef).1

/-- C8: running `get_and_update_changed_fields` a second time — on the
instance and heap produced by the first run, with no attribute rebinding or
object mutation in between — returns an empty `changed_fields` dict: the
first run already moved the snapshot to the current values. -/
theorem C8_second_call_returns_empty
    (sid rid : Nat) (fields : List DField) (inst : Instance) (h : Heap)
    (hWF : InstWF inst h) (hND : (fields.map DField.name).Nodup) :
    (get_and_update_changed_fields sid rid
      (get_and_update_changed_fields sid rid inst fields h).2.1 fields
      (get_and_update_changed_fields sid rid inst fields h).2.2).1 = [] := by
  obtain ⟨hA, hB⟩ := hWF
  obtain ⟨g1, g2, g3, g4, g5, g6⟩ :=
    foldl_processField_spec inst fields
      ⟨(alookup inst.fieldsignals_originals (sid, rid)).getD [], [], h⟩
      (fields.foldl (processField inst)
        ⟨(alookup inst.fieldsignals_originals (sid, rid)).getD [], [], h⟩)
      hA (orig0_WF inst h (sid, rid) hB) (by intro p hp; simp at hp) hND rfl
  -- fold facts for the second call
  obtain ⟨k1, k2, k3, k4, k5, k6⟩ :=
    foldl_processField_spec
      (Instance.mk inst.attrs inst.get_deferred_fields
        (aset inst.fieldsignals_originals (sid, rid)
          (fields.foldl (processField inst)
            ⟨(alookup inst.fieldsignals_originals (sid, rid)).getD [], [], h⟩).originals))
      fields
      ⟨(alookup (aset inst.fieldsignals_originals (sid, rid)
          (fields.foldl (processField inst)
            ⟨(alookup inst.fieldsignals_originals (sid, rid)).getD [], [], h⟩).originals)
          (sid, rid)).getD [], [],
        (fields.foldl (processField inst)
          ⟨(alookup inst.fieldsignals_originals (sid, rid)).getD [], [], h⟩).heap⟩
      (fields.foldl (processField
          (Instance.mk inst.attrs inst.get_deferred_fields
            (aset inst.fieldsignals_originals (sid, rid)
              (fields.foldl (processField inst)
                ⟨(alookup inst.fieldsignals_originals (sid, rid)).getD [], [], h⟩).originals)))
        ⟨(alookup (aset inst.fieldsignals_originals (sid, rid)
            (fields.foldl (processField inst)
              ⟨(alookup inst.fieldsignals_originals (sid, rid)).getD [], [], h⟩).originals)
            (sid, rid)).getD [], [],
          (fields.foldl (processField inst)
            ⟨(alookup inst.fieldsignals_originals (sid, rid)).getD [], [], h⟩).heap⟩)
      (fun n => lt_of_lt_of_le (hA n) g1)
      (by
        rw [alookup_aset_self]
        exact g3)
      (by intro p hp; simp at hp)
      hND rfl
  -- the second call returns the second fold's changed_fields dict
  have hsecond : (get_and_update_changed_fields sid rid
      (get_and_update_changed_fields sid rid inst fields h).2.1 fields
      (get_and_update_changed_fields sid rid inst fields h).2.2).1 =
      (fields.foldl (processField
          (Instance.mk inst.attrs inst.get_deferred_fields
            (aset inst.fieldsignals_originals (sid, rid)
              (fields.foldl (processField inst)
                ⟨(alookup inst.fieldsignals_originals (sid, rid)).getD [], [], h⟩).originals)))
        ⟨(alookup (aset inst.fieldsignals_originals (sid, rid)
            (fields.foldl (processField inst)
              ⟨(alookup inst.fieldsignals_originals (sid, rid)).getD [], [], h⟩).originals)
            (sid, rid)).getD [], [],
          (fields.foldl (processField inst)
            ⟨(alookup inst.fieldsignals_originals (sid, rid)).getD [], [], h⟩).heap⟩).changed_fields := rfl
  rw [hsecond]
  apply alookup_nil_of_forall
  intro k
  by_cases hk : k ∈ fields.map DField.name
  · obtain ⟨f, hf, hfk⟩ := List.mem_map.mp hk
    subst hfk
    obtain ⟨w1, w2, w3⟩ := k6 f hf
    by_cases hdef : f.attname ∈ inst.get_deferred_fields
    · rw [(w1 hdef).2]; rfl
    · -- the second run sees old and normalized-new values that agree
      have e4 : (fields.foldl (processField inst)
          ⟨(alookup inst.fieldsignals_originals (sid, rid)).getD [], [], h⟩).heap.get
            (inst.attrs f.name) = h.get (inst.attrs f.name) := g2 _ (hA f.name)
      have heq : oldContent
          (fields.foldl (processField inst)
            ⟨(alookup inst.fieldsignals_originals (sid, rid)).getD [], [], h⟩).heap
          (alookup ((alookup (aset inst.fieldsignals_originals (sid, rid)
            (fields.foldl (processField inst)
              ⟨(alookup inst.fieldsignals_originals (sid, rid)).getD [], [], h⟩).originals)
            (sid, rid)).getD []) f.name) =
          normContent f
            ((fields.foldl (processField inst)
              ⟨(alookup inst.fieldsignals_originals (sid, rid)).getD [], [], h⟩).heap.get
              (inst.attrs f.name)) := by
        rw [alookup_aset_self]
        simp only [Option.getD_some]
        rw [e4]
        obtain ⟨v1, v2, v3⟩ := g6 f hf
        by_cases hchg : oldContent h
            (alookup ((alookup inst.fieldsignals_originals (sid, rid)).getD []) f.name) =
            normContent f (h.get (inst.attrs f.name))
        · -- unchanged on the first run: snapshot entry untouched, still equal
          rw [(v2 hdef hchg).1]
          cases hold : alookup ((alookup inst.fieldsignals_originals (sid, rid)).getD [])
              f.name with
          | none =>
            rw [← hchg, hold]
            rfl
          | some b =>
            have hb : b < h.next := orig0_WF inst h (sid, rid) hB _ (alookup_mem _ _ _ hold)
            rw [← hchg, hold]
            simp only [oldContent]
            exact g2 b hb
        · -- changed on the first run: snapshot entry now holds the new content
          obtain ⟨a, q1, q2, q3, q4, q5⟩ := v3 hdef hchg
          rw [q1]
          simp only [oldContent]
          exact q3
      rw [(w2 hdef heq).2]
      rfl
  · rw [(k5 k hk).2]
    rfl

/-- C5: when a changed field's normalized new value is not of a whitelisted
immutable type, the snapshot entry written for it is a deep copy — a fresh
object, distinct from every pre-existing object and in particular from the
instance's live attribute value — so mutating any pre-existing object (e.g.
the live list still bound to the attribute) afterwards leaves the stored
"old value" that the next diff will read unchanged. -/
theorem C5_snapshot_stores_deep_copy
    (sid rid : Nat) (fields : List DField) (inst : Instance) (h : Heap)
    (hWF : InstWF inst h) (hND : (fields.map DField.name).Nodup)
    (f : DField) (hf : f ∈ fields) (hdef : f.attname ∉ inst.get_deferred_fields)
    (hchg : snapshotOld inst h (sid, rid) f ≠ normalizedNew inst h f)
    (hwl : isinstance_IMMUTABLE_TYPES_WHITELIST (normalizedNew inst h f) = false) :
    ∃ a, alookup ((alookup (get_and_update_changed_fields sid rid inst fields h).2.1.fieldsignals_originals
          (sid, rid)).getD []) f.name = some a ∧
      h.next ≤ a ∧
      (∀ n, inst.attrs n ≠ a) ∧
      (get_and_update_changed_fields sid rid inst fields h).2.2.get a = normalizedNew inst h f ∧
      (∀ b v, b < h.next →
        ((get_and_update_changed_fields sid rid inst fields h).2.2.set b v).get a =
          normalizedNew inst h f) := by
  obtain ⟨hA, hB⟩ := hWF
  obtain ⟨g1, g2, g3, g4, g5, g6⟩ :=
    foldl_processField_spec inst fields
      ⟨(alookup inst.fieldsignals_originals (sid, rid)).getD [], [], h⟩
      (fields.foldl (processField inst)
        ⟨(alookup inst.fieldsignals_originals (sid, rid)).getD [], [], h⟩)
      hA (orig0_WF inst h (sid, rid) hB) (by intro p hp; simp at hp) hND rfl
  obtain ⟨w1, w2, w3⟩ := g6 f hf
  obtain ⟨a, q1, q2, q3, q4, q5⟩ := w3 hdef hchg
  have hge : h.next ≤ a := q5 hwl
  have hng : (get_and_update_changed_fields sid rid inst fields h).2.1.fieldsignals_originals =
      aset inst.fieldsignals_originals (sid, rid)
        (fields.foldl (processField inst)
          ⟨(alookup inst.fieldsignals_originals (sid, rid)).getD [], [], h⟩).originals := rfl
  have hh : (get_and_update_changed_fields sid rid inst fields h).2.2 =
      (fields.foldl (processField inst)
        ⟨(alookup inst.fieldsignals_originals (sid, rid)).getD [], [], h⟩).heap := rfl
  refine ⟨a, ?_, hge, ?_, ?_, ?_⟩
  · rw [hng, alookup_aset_self]
    simp only [Option.getD_some]
    exact q1
  · intro n
    exact Nat.ne_of_lt (lt_of_lt_of_le (hA n) hge)
  · rw [hh]; exact q3
  · intro b v hb
    rw [hh, Heap.get_set_ne _ _ _ _ (Nat.ne_of_gt (lt_of_lt_of_le hb hge))]
    exact q3

/-- C10: for a changed field with a non-whitelisted normalized new value,
the "new value" reference delivered to the listener inside `changed_fields`
is the very same deep copy that is written to the snapshot, not the live
object held by the instance; mutating the instance's attribute object after
delivery does not alter the delivered entry's content. -/
theorem C10_delivered_new_value_is_the_snapshot_copy
    (sid rid : Nat) (fields : List DField) (inst : Instance) (h : Heap)
    (hWF : InstWF inst h) (hND : (fields.map DField.name).Nodup)
    (f : DField) (hf : f ∈ fields) (hdef : f.attname ∉ inst.get_deferred_fields)
    (hchg : snapshotOld inst h (sid, rid) f ≠ normalizedNew inst h f)
    (hwl : isinstance_IMMUTABLE_TYPES_WHITELIST (normalizedNew inst h f) = false) :
    ∃ a, alookup (get_and_update_changed_fields sid rid inst fields h).1 f.name =
        some (alookup ((alookup inst.fieldsignals_originals (sid, rid)).getD []) f.name, a) ∧
      alookup ((alookup (get_and_update_changed_fields sid rid inst fields h).2.1.fieldsignals_originals
          (sid, rid)).getD []) f.name = some a ∧
      a ≠ inst.attrs f.name ∧
      (get_and_update_changed_fields sid rid inst fields h).2.2.get a = normalizedNew inst h f ∧
      (∀ v, ((get_and_update_changed_fields sid rid inst fields h).2.2.set (inst.attrs f.name) v).get a =
        normalizedNew inst h f) := by
  obtain ⟨hA, hB⟩ := hWF
  obtain ⟨g1, g2, g3, g4, g5, g6⟩ :=
    foldl_processField_spec inst fields
      ⟨(alookup inst.fieldsignals_originals (sid, rid)).getD [], [], h⟩
      (fields.foldl (processField inst)
        ⟨(alookup inst.fieldsignals_originals (sid, rid)).getD [], [], h⟩)
      hA (orig0_WF inst h (sid, rid) hB) (by intro p hp; simp at hp) hND rfl
  obtain ⟨w1, w2, w3⟩ := g6 f hf
  obtain ⟨a, q1, q2, q3, q4, q5⟩ := w3 hdef hchg
  have hge : h.next ≤ a := q5 hwl
  have hch : (get_and_update_changed_fields sid rid inst fields h).1 =
      (fields.foldl (processField inst)
        ⟨(alookup inst.fieldsignals_originals (sid, rid)).getD [], [], h⟩).changed_fields := rfl
  have hng : (get_and_update_changed_fields sid rid inst fields h).2.1.fieldsignals_originals =
      aset inst.fieldsignals_originals (sid, rid)
        (fields.foldl (processField inst)
          ⟨(alookup inst.fieldsignals_originals (sid, rid)).getD [], [], h⟩).originals := rfl
  have hh : (get_and_update_changed_fields sid rid inst fields h).2.2 =
      (fields.foldl (processField inst)
        ⟨(alookup inst.fieldsignals_originals (sid, rid)).getD [], [], h⟩).heap := rfl
  have hne : a ≠ inst.attrs f.name := Nat.ne_of_gt (lt_of_lt_of_le (hA f.name) hge)
  refine ⟨a, ?_, ?_, hne, ?_, ?_⟩
  · rw [hch]; exact q2
  · rw [hng, alookup_aset_self]
    simp only [Option.getD_some]
    exact q1
  · rw [hh]; exact q3
  · intro v
    rw [hh, Heap.get_set_ne _ _ _ _ hne]
    exact q3

theorem signalConnect_skip (rs : List ReceiverEntry) (e : ReceiverEntry)
    (h : ∃ r ∈ rs, entryKey r = entryKey e) : signalConnect rs e = rs := by
  unfold signalConnect
  rw [if_pos]
  obtain ⟨r, hr, hkey⟩ := h
  exact List.any_eq_true.mpr ⟨r, hr, decide_eq_true hkey⟩

theorem signalConnect_append (rs : List ReceiverEntry) (e : ReceiverEntry)
    (h : ∀ r ∈ rs, entryKey r ≠ entryKey e) : signalConnect rs e = rs ++ [e] := by
  unfold signalConnect
  rw [if_neg]
  intro hany
  obtain ⟨r, hr, hdec⟩ := List.any_eq_true.mp hany
  exact h r hr (of_decide_eq_true hdec)

theorem signalConnect_key_present (rs : List ReceiverEntry) (e : ReceiverEntry) :
    ∃ r ∈ signalConnect rs e, entryKey r = entryKey e := by
  unfold signalConnect
  by_cases hany : rs.any (fun r => decide (entryKey r = entryKey e)) = true
  · rw [if_pos hany]
    obtain ⟨r, hr, hdec⟩ := List.any_eq_true.mp hany
    exact ⟨r, hr, of_decide_eq_true hdec⟩
  · rw [if_neg hany]
    exact ⟨e, by simp, rfl⟩

/-- C9: every validation failure of `connect` is raised before any proxy or
closure is attached: when `connectR` returns an error, the registration
state (channel receivers, post_init receivers, source-signal receivers,
closure counter) is exactly the input state. -/
theorem C9_failed_connect_has_no_effect
    (signalId : Nat) (ready : Bool) (rid : Nat) (sender : Sender)
    (fieldNames : Option (List String)) (weak : Bool) (uid : Option (Nat × Nat))
    (st st2 : ChannelState) (e : ConnectError)
    (hrun : connectR signalId ready rid sender fieldNames weak uid st = (Except.error e, st2)) :
    st2 = st := by
  simp only [connectR] at hrun
  split at hrun
  · exact (congrArg Prod.snd hrun).symm
  · split at hrun
    · exact (congrArg Prod.snd hrun).symm
    · split at hrun
      · exact (congrArg Prod.snd hrun).symm
      · split at hrun
        · exact (congrArg Prod.snd hrun).symm
        · split at hrun
          · exact (congrArg Prod.snd hrun).symm
          · exact absurd (congrArg Prod.fst hrun) (by simp)

/-- C7: with no field list, `connect` resolves the field set to every
declared field of the sender that is not a relationship-reverse field
(many-to-many, one-to-many, or a `ForeignObjectRel`), and a successful
registration's proxy carries exactly that set; conversely, any call whose
explicit field list names a reverse-related declared field fails with an
error, whatever the rest of the configuration. -/
theorem C7_default_fields_and_reverse_rejection
    (signalId : Nat) (ready : Bool) (rid : Nat) (sender : Sender)
    (weak : Bool) (uid : Option (Nat × Nat)) (st : ChannelState) :
    (resolveFields sender Option.none =
      Except.ok (sender.meta_get_fields.filter (fun f => !is_reverse_rel f))) ∧
    (∀ st2, connectR signalId ready rid sender Option.none weak uid st = (Except.ok (), st2) →
      ∃ e, st2.chanReceivers = signalConnect st.chanReceivers e ∧
        e.fields = sender.meta_get_fields.filter (fun f => !is_reverse_rel f)) ∧
    (∀ names f, f ∈ sender.meta_get_fields → is_reverse_rel f = true → f.name ∈ names →
      ∃ e2, (connectR signalId ready rid sender (some names) weak uid st).1 =
        Except.error e2) := by
  refine ⟨rfl, ?_, ?_⟩
  · intro st2 hrun
    simp only [connectR] at hrun
    split at hrun
    · exact absurd (congrArg Prod.fst hrun) (by simp)
    · split at hrun
      · exact absurd (congrArg Prod.fst hrun) (by simp)
      · split at hrun
        · exact absurd (congrArg Prod.fst hrun) (by simp)
        · split at hrun
          · exact absurd (congrArg Prod.fst hrun) (by simp)
          · rename_i fs heq
            split at hrun
            · exact absurd (congrArg Prod.fst hrun) (by simp)
            · have hfs : sender.meta_get_fields.filter (fun f => !is_reverse_rel f) = fs := by
                have h0 : resolveFields sender Option.none =
                    Except.ok (sender.meta_get_fields.filter (fun f => !is_reverse_rel f)) := rfl
                rw [h0] at heq
                exact (Except.ok.injEq _ _).mp heq
              injection hrun with hfst hsnd
              subst hsnd
              exact ⟨⟨uid, st.nextClosureId, sender.id, rid, fs⟩, rfl, hfs.symm⟩
  · intro names f hf hrev hname
    have hfind : ∃ g, ((sender.meta_get_fields.filter (fun f2 => f2.name ∈ names)).find?
        (fun f2 => is_reverse_rel f2)) = some g := by
      rw [← Option.isSome_iff_exists]
      apply List.find?_isSome.mpr
      exact ⟨f, List.mem_filter.mpr ⟨hf, decide_eq_true hname⟩, hrev⟩
    obtain ⟨g, hg⟩ := hfind
    have hres : resolveFields sender (some names) =
        Except.error (ConnectError.reverseRelField g.name) := by
      simp only [resolveFields]
      rw [hg]
    by_cases hr : ready = true
    · by_cases hw : weak = true
      · exact ⟨ConnectError.weakNotSupported, by simp [connectR, hr, hw]⟩
      · by_cases hc : sender.isClass = true
        · exact ⟨ConnectError.reverseRelField g.name, by simp [connectR, hr, hw, hc, hres]⟩
        · exact ⟨ConnectError.senderNotClass, by simp [connectR, hr, hw, hc]⟩
    · exact ⟨ConnectError.appRegistryNotReady, by simp [connectR, hr]⟩

theorem signalConnect_mem (rs : List ReceiverEntry) (e r : ReceiverEntry)
    (hr : r ∈ signalConnect rs e) : r ∈ rs ∨ r = e := by
  unfold signalConnect at hr
  split at hr
  · exact Or.inl hr
  · rcases List.mem_append.mp hr with h1 | h1
    · exact Or.inl h1
    · exact Or.inr (List.mem_singleton.mp h1)

/-- Every closure identity handed out so far is below the counter. -/
def ChannelStateWF (st : ChannelState) : Prop :=
  ∀ e ∈ st.chanReceivers, e.closureId < st.nextClosureId

/-- The base `Field.to_python` (`return value`): always the same object. -/
def idToPython : PVal → Option PVal := fun _ => Option.none

/-- The plain text field "a_key" of the test fixtures. -/
def fieldA : DField := ⟨"a_key", "a_key", false, false, false, idToPython⟩

/-- A model sender class with id 7 declaring just `fieldA`. -/
def senderA : Sender := ⟨true, 7, [fieldA]⟩

/-- A channel with no registrations yet. -/
def ChannelState0 : ChannelState := ⟨[], [], [], 0⟩

/-- C2 counterexample: from a fresh channel, connecting the same receiver
(id 5) for the same sender on the same channel twice with identical
arguments does not raise any error on the second call — both calls return
success, and afterwards the channel holds two proxy registrations. -/
theorem C2_counterexample_duplicate_connect_does_not_raise :
    (connectR 1 true 5 senderA Option.none false Option.none ChannelState0).1 =
      Except.ok () ∧
    (connectR 1 true 5 senderA Option.none false Option.none
      (connectR 1 true 5 senderA Option.none false Option.none ChannelState0).2).1 =
      Except.ok () ∧
    (connectR 1 true 5 senderA Option.none false Option.none
      (connectR 1 true 5 senderA Option.none false Option.none
        ChannelState0).2).2.chanReceivers.length = 2 :=
  ⟨rfl, rfl, rfl⟩

/-- C2 (amended): re-registering the same (channel, listener, record type)
with the default dispatch uid raises nothing.  Whenever a first `connect`
succeeded, the identical second call also returns success; it appends one
more proxy registration for the channel event (so the listener is now
registered twice) and leaves the post_init receivers unchanged (that hookup
is deduplicated by its `(signal, receiver)` dispatch uid). -/
theorem C2_amended_duplicate_connect_succeeds
    (signalId rid : Nat) (sender : Sender) (fieldNames : Option (List String))
    (st st1 : ChannelState) (hWF : ChannelStateWF st)
    (hok : connectR signalId true rid sender fieldNames false Option.none st =
      (Except.ok (), st1)) :
    ∃ st2 fs, connectR signalId true rid sender fieldNames false Option.none st1 =
        (Except.ok (), st2) ∧
      resolveFields sender fieldNames = Except.ok fs ∧
      st2.chanReceivers = st1.chanReceivers ++
        [⟨Option.none, st1.nextClosureId, sender.id, rid, fs⟩] ∧
      st2.postInitReceivers = st1.postInitReceivers := by
  simp only [connectR] at hok
  rw [if_neg (by simp)] at hok
  rw [if_neg (by simp)] at hok
  split at hok
  · exact absurd (congrArg Prod.fst hok) (by simp)
  · rename_i hc
    split at hok
    · exact absurd (congrArg Prod.fst hok) (by simp)
    · rename_i fs heq
      split at hok
      · exact absurd (congrArg Prod.fst hok) (by simp)
      · rename_i hemp
        injection hok with hfst hsnd
        have hnext : st.nextClosureId + 1 + 1 = st1.nextClosureId :=
          congrArg ChannelState.nextClosureId hsnd
        refine ⟨ChannelState.mk
            (signalConnect st1.chanReceivers
              ⟨Option.none, st1.nextClosureId, sender.id, rid, fs⟩)
            (signalConnect st1.postInitReceivers
              ⟨some (signalId, rid), st1.nextClosureId + 1, sender.id, rid, fs⟩)
            (sourceConnect st1.sourceReceivers (signalId, sender.id))
            (st1.nextClosureId + 1 + 1), fs, ?_, heq, ?_, ?_⟩
        · simp only [connectR]
          rw [if_neg (by simp), if_neg (by simp), if_neg hc, heq]
          dsimp only
          rw [if_neg hemp]
        · apply signalConnect_append
          intro r hr
          rw [← hsnd] at hr
          rcases signalConnect_mem st.chanReceivers
              ⟨Option.none, st.nextClosureId, sender.id, rid, fs⟩ r hr with h1 | h1
          · have hlt : r.closureId < st.nextClosureId := hWF r h1
            cases hu : r.lookupUid with
            | none =>
              simp only [entryKey, hu]
              intro hk
              injection hk with hk1 hk2
              injection hk1 with hk3
              omega
            | some u =>
              simp only [entryKey, hu]
              intro hk
              injection hk with hk1 hk2
              exact absurd hk1 (by simp)
          · subst h1
            simp only [entryKey]
            intro hk
            injection hk with hk1 hk2
            injection hk1 with hk3
            omega
        · apply signalConnect_skip
          obtain ⟨r, hr, hkey⟩ := signalConnect_key_present st.postInitReceivers
            ⟨some (signalId, rid), st.nextClosureId + 1, sender.id, rid, fs⟩
          refine ⟨r, ?_, ?_⟩
          · rw [← hsnd]
            exact hr
          · rw [hkey]
            rfl

/-- C3 counterexample: an explicit field list containing the unknown name
"nonexistent" alongside the known "a_key" does not make registration fail:
`connect` succeeds and the proxy simply watches `a_key` alone — the unknown
name is silently dropped. -/
theorem C3_counterexample_unknown_name_is_ignored :
    (connectR 1 true 5 senderA (some ["a_key", "nonexistent"]) false Option.none
      ChannelState0).1 = Except.ok () ∧
    ((connectR 1 true 5 senderA (some ["a_key", "nonexistent"]) false Option.none
      ChannelState0).2.chanReceivers.map (fun e => e.fields.map DField.name)) =
      [["a_key"]] :=
  ⟨rfl, rfl⟩

/-- C3 (amended): a requested field name matching no declared field is
silently ignored rather than rejected.  `connect` fails (with the
empty-field-set ValueError) only in the extreme case that no requested name
matches any declared field; as soon as at least one name matches a declared
field — and no matched field is reverse-related — the registration
succeeds even if other names are unknown. -/
theorem C3_amended_unknown_names_silently_ignored
    (signalId rid : Nat) (sender : Sender) (names : List String)
    (uid : Option (Nat × Nat)) (st : ChannelState)
    (hclass : sender.isClass = true) :
    ((∀ f ∈ sender.meta_get_fields, f.name ∉ names) →
      connectR signalId true rid sender (some names) false uid st =
        (Except.error ConnectError.emptyFields, st)) ∧
    ((∃ f ∈ sender.meta_get_fields, f.name ∈ names) →
      (∀ f ∈ sender.meta_get_fields, f.name ∈ names → is_reverse_rel f = false) →
      (connectR signalId true rid sender (some names) false uid st).1 =
        Except.ok ()) := by
  constructor
  · intro hnone
    have hfil : sender.meta_get_fields.filter (fun f => f.name ∈ names) = [] := by
      apply List.filter_eq_nil_iff.mpr
      intro f hf
      simp only [decide_eq_true_eq]
      exact hnone f hf
    have hres : resolveFields sender (some names) = Except.ok [] := by
      simp only [resolveFields]
      rw [hfil]
      rfl
    simp only [connectR]
    rw [if_neg (by simp), if_neg (by simp), if_neg (by simp [hclass]), hres]
    rfl
  · intro hmatch hnorev
    obtain ⟨f0, hf0, hf0n⟩ := hmatch
    have hmem : f0 ∈ sender.meta_get_fields.filter (fun f => f.name ∈ names) :=
      List.mem_filter.mpr ⟨hf0, decide_eq_true hf0n⟩
    have hfind : (sender.meta_get_fields.filter (fun f => f.name ∈ names)).find?
        (fun f => is_reverse_rel f) = Option.none := by
      apply List.find?_eq_none.mpr
      intro g hg
      obtain ⟨hg1, hg2⟩ := List.mem_filter.mp hg
      rw [hnorev g hg1 (of_decide_eq_true hg2)]
      simp
    have hres : resolveFields sender (some names) =
        Except.ok (sender.meta_get_fields.filter (fun f => f.name ∈ names)) := by
      simp only [resolveFields]
      rw [hfind]
    have hemp : (sender.meta_get_fields.filter (fun f => f.name ∈ names)).isEmpty = false := by
      rw [List.isEmpty_eq_false_iff_exists_mem]
      exact ⟨f0, hmem⟩
    simp only [connectR]
    rw [if_neg (by simp), if_neg (by simp), if_neg (by simp [hclass]), hres]
    dsimp only
    rw [if_neg (by simp [hemp])]

/-- A concrete heap: address 1 holds the string "a value", address 2 a
one-element list, address 3 a structured timestamp, address 4 its textual
form. -/
def hW : Heap :=
  { cells := fun a =>
      if a = 1 then .pystr "a value"
      else if a = 2 then .pylist [.sint 1]
      else if a = 3 then .pydt 42
      else if a = 4 then .pystr "2017-01-01T00:00:00.000000Z"
      else .pynone,
    next := 5 }

/-- A list-valued field (identity `to_python`). -/
def fieldL : DField := ⟨"mlist", "mlist", false, false, false, idToPython⟩

/-- The test fixtures' `DateTimeField.to_python` on the values exercised
here: `None` and structured timestamps are returned unchanged (the same
object); a textual timestamp is parsed into a newly constructed structured
one (this table carries the single timestamp the scenarios use). -/
def dtToPython : PVal → Option PVal
  | .pystr s => if s = "2017-01-01T00:00:00.000000Z" then some (.pydt 42) else some .pynone
  | _ => Option.none

def fieldDT : DField := ⟨"a_datetime", "a_datetime", false, false, false, dtToPython⟩

/-- A fresh model instance with `a_key` bound to the string at address 1 and
`mlist` to the list at address 2; nothing deferred, no snapshots yet. -/
def instW : Instance :=
  { attrs := fun n => if n = "a_key" then 1 else if n = "mlist" then 2 else 0,
    get_deferred_fields := [],
    fieldsignals_originals := [] }

theorem instW_WF : InstWF instW hW := by
  constructor
  · intro n
    show (if n = "a_key" then 1 else if n = "mlist" then 2 else 0) < 5
    split
    · decide
    · split
      · decide
      · decide
  · intro p hp
    simp [instW] at hp

/-- An instance whose `a_datetime` attribute holds the textual timestamp at
address 4, with a snapshot already primed to the equal structured timestamp
at address 3. -/
def instDT : Instance :=
  { attrs := fun n => if n = "a_datetime" then 4 else 0,
    get_deferred_fields := [],
    fieldsignals_originals := [((1, 5), [("a_datetime", 3)])] }

theorem instDT_WF : InstWF instDT hW := by
  constructor
  · intro n
    show (if n = "a_datetime" then 4 else 0) < 5
    split
    · decide
    · decide
  · decide

/-- The deferred-field scenario: fields `a`, `b`; `b` not yet loaded. -/
def hD : Heap := { cells := fun a => if a = 1 then .pyint 1 else .pynone, next := 2 }

def fieldA6 : DField := ⟨"a", "a", false, false, false, idToPython⟩

def fieldB6 : DField := ⟨"b", "b", false, false, false, idToPython⟩

def instD : Instance :=
  { attrs := fun n => if n = "a" then 1 else 0,
    get_deferred_fields := ["b"],
    fieldsignals_originals := [] }

theorem instD_WF : InstWF instD hD := by
  constructor
  · intro n
    show (if n = "a" then 1 else 0) < 2
    split
    · decide
    · decide
  · intro p hp
    simp [instD] at hp

/-- C1 witness: on a fresh instance whose watched field `a_key` differs from
the absent snapshot, the change set is non-empty, the proxy invokes the
listener with it, and it contains `a_key`. -/
theorem C1_witness :
    (get_and_update_changed_fields 1 5 instW [fieldA] hW).1 ≠ [] ∧
    (proxyReceiver 1 5 [fieldA] instW hW).1 =
      some (get_and_update_changed_fields 1 5 instW [fieldA] hW).1 ∧
    alookup (get_and_update_changed_fields 1 5 instW [fieldA] hW).1 "a_key" ≠ Option.none := by
  obtain ⟨p1, p2, p3, p4, p5, p6⟩ :=
    C1_proxy_invokes_iff_changed 1 5 [fieldA] instW hW instW_WF (by simp [fieldA])
  have hdef : fieldA.attname ∉ instW.get_deferred_fields := by simp [fieldA, instW]
  have hne : snapshotOld instW hW (1, 5) fieldA ≠ normalizedNew instW hW fieldA := by decide
  have hlook := (p3 fieldA (by simp) hdef).1.mpr hne
  have hnonnil : (get_and_update_changed_fields 1 5 instW [fieldA] hW).1 ≠ [] := by
    intro hemp
    rw [hemp] at hlook
    exact hlook rfl
  exact ⟨hnonnil, p1 hnonnil, hlook⟩

/-- C4 witness: the textual timestamp and the stored structured timestamp
are different raw values, but normalize equal; the diff records no change
for `a_datetime` and the proxy does not invoke the listener. -/
theorem C4_witness :
    hW.get (instDT.attrs "a_datetime") ≠ snapshotOld instDT hW (1, 5) fieldDT ∧
    normalizedNew instDT hW fieldDT = snapshotOld instDT hW (1, 5) fieldDT ∧
    alookup (get_and_update_changed_fields 1 5 instDT [fieldDT] hW).1 "a_datetime" =
      Option.none ∧
    (proxyReceiver 1 5 [fieldDT] instDT hW).1 = Option.none := by
  have hthm := C4_normalization_before_comparison 1 5 [fieldDT] instDT hW instDT_WF
    (by simp [fieldDT])
  refine ⟨by decide, by decide, ?_, ?_⟩
  · exact hthm.1 fieldDT (by simp) (by simp [fieldDT, instDT]) (by decide)
  · refine hthm.2 ?_
    intro f hf
    rw [List.mem_singleton.mp hf]
    exact Or.inr (by decide)

/-- C5 witness: the changed list field's snapshot entry is the fresh copy at
address 5 holding the list's content; overwriting the live list at address 2
afterwards leaves that stored old value intact. -/
theorem C5_witness :
    alookup ((alookup (get_and_update_changed_fields 1 5 instW [fieldL] hW).2.1.fieldsignals_originals
        (1, 5)).getD []) "mlist" = some 5 ∧
    (get_and_update_changed_fields 1 5 instW [fieldL] hW).2.2.get 5 =
      PVal.pylist [PScalar.sint 1] ∧
    ((get_and_update_changed_fields 1 5 instW [fieldL] hW).2.2.set 2
        (PVal.pylist [PScalar.sint 1, PScalar.sint 2])).get 5 =
      PVal.pylist [PScalar.sint 1] := by
  obtain ⟨a, q1, q2, q3, q4, q5⟩ :=
    C5_snapshot_stores_deep_copy 1 5 [fieldL] instW hW instW_WF (by simp [fieldL])
      fieldL (by simp) (by simp [fieldL, instW]) (by decide) (by decide)
  have ha : a = 5 := by
    have h2 : (some a : Option Addr) = some 5 := by rw [← q1]; rfl
    injection h2
  subst ha
  refine ⟨q1, ?_, ?_⟩
  · exact q4.trans (by decide)
  · exact (q5 2 (PVal.pylist [PScalar.sint 1, PScalar.sint 2]) (by decide)).trans (by decide)

/-- C6 witness: for the type with fields `a`, `b` where `b` is deferred,
after initialization-time priming, `b` is in neither the change set nor the
snapshot, and the snapshot contains exactly `a`. -/
theorem C6_witness :
    alookup (get_and_update_changed_fields 1 5 instD [fieldA6, fieldB6] hD).1 "b" =
      Option.none ∧
    alookup ((alookup (get_and_update_changed_fields 1 5 instD [fieldA6, fieldB6] hD).2.1.fieldsignals_originals
        (1, 5)).getD []) "b" = Option.none ∧
    ((alookup (get_and_update_changed_fields 1 5 instD [fieldA6, fieldB6] hD).2.1.fieldsignals_originals
        (1, 5)).getD []).map Prod.fst = ["a"] := by
  obtain ⟨h1, h2⟩ :=
    C6_deferred_fields_skipped 1 5 [fieldA6, fieldB6] instD hD instD_WF (by decide)
      fieldB6 (by simp) (by simp [fieldB6, instD])
  exact ⟨h1, h2.trans rfl, rfl⟩

/-- C8 witness: the concrete priming call followed by an identical second
call yields an empty change set the second time. -/
theorem C8_witness :
    (get_and_update_changed_fields 1 5
      (get_and_update_changed_fields 1 5 instW [fieldA] hW).2.1 [fieldA]
      (get_and_update_changed_fields 1 5 instW [fieldA] hW).2.2).1 = [] :=
  C8_second_call_returns_empty 1 5 [fieldA] instW hW instW_WF (by simp [fieldA])

/-- C10 witness: the pair delivered for the changed list field carries the
fresh copy at address 5 (old side: None), the same reference the snapshot
stores; overwriting the live list at address 2 leaves its content intact. -/
theorem C10_witness :
    alookup (get_and_update_changed_fields 1 5 instW [fieldL] hW).1 "mlist" =
      some (Option.none, 5) ∧
    alookup ((alookup (get_and_update_changed_fields 1 5 instW [fieldL] hW).2.1.fieldsignals_originals
        (1, 5)).getD []) "mlist" = some 5 ∧
    ((get_and_update_changed_fields 1 5 instW [fieldL] hW).2.2.set (instW.attrs "mlist")
        (PVal.pylist [])).get 5 = PVal.pylist [PScalar.sint 1] := by
  obtain ⟨a, q1, q2, q3, q4, q5⟩ :=
    C10_delivered_new_value_is_the_snapshot_copy 1 5 [fieldL] instW hW instW_WF
      (by simp [fieldL]) fieldL (by simp) (by simp [fieldL, instW]) (by decide) (by decide)
  have ha : a = 5 := by
    have h2 : (some a : Option Addr) = some 5 := by
      rw [← q2]
      rfl
    injection h2
  subst ha
  exact ⟨q1, q2, (q5 (PVal.pylist [])).trans (by decide)⟩

/-- The m2m relationship-reverse field of the test fixtures. -/
def fieldM : DField := ⟨"m2m", "m2m", true, false, false, idToPython⟩

/-- A sender declaring a plain field and a many-to-many field. -/
def senderM : Sender := ⟨true, 8, [fieldA, fieldM]⟩

/-- C7 witness: with no field list, resolution for senderM keeps only
`a_key` (dropping the m2m field); naming "m2m" explicitly makes connect
fail. -/
theorem C7_witness :
    resolveFields senderM Option.none = Except.ok [fieldA] ∧
    (∃ e2, (connectR 1 true 5 senderM (some ["m2m", "a_key"]) false Option.none
      ChannelState0).1 = Except.error e2) := by
  have hthm := C7_default_fields_and_reverse_rejection 1 true 5 senderM false Option.none
    ChannelState0
  constructor
  · exact hthm.1.trans (by rfl)
  · exact hthm.2.2 ["m2m", "a_key"] fieldM (by simp [senderM]) (by decide) (by decide)

/-- C9 witness: a weak-reference request fails and returns the channel state
untouched. -/
theorem C9_witness :
    (connectR 1 true 5 senderA Option.none true Option.none ChannelState0).1 =
      Except.error ConnectError.weakNotSupported ∧
    (connectR 1 true 5 senderA Option.none true Option.none ChannelState0).2 =
      ChannelState0 := by
  constructor
  · rfl
  · exact C9_failed_connect_has_no_effect 1 true 5 senderA Option.none true Option.none
      ChannelState0 (connectR 1 true 5 senderA Option.none true Option.none ChannelState0).2
      ConnectError.weakNotSupported rfl

/-- C2 amended-claim witness: from the fresh channel, the second identical
connect succeeds, appends one proxy and leaves post_init deduplicated. -/
theorem C2_amended_witness :
    ∃ st2 fs, connectR 1 true 5 senderA Option.none false Option.none
        (connectR 1 true 5 senderA Option.none false Option.none ChannelState0).2 =
        (Except.ok (), st2) ∧
      resolveFields senderA Option.none = Except.ok fs ∧
      st2.chanReceivers =
        (connectR 1 true 5 senderA Option.none false Option.none ChannelState0).2.chanReceivers ++
        [⟨Option.none,
          (connectR 1 true 5 senderA Option.none false Option.none ChannelState0).2.nextClosureId,
          senderA.id, 5, fs⟩] ∧
      st2.postInitReceivers =
        (connectR 1 true 5 senderA Option.none false Option.none ChannelState0).2.postInitReceivers :=
  C2_amended_duplicate_connect_succeeds 1 5 senderA Option.none ChannelState0
    (connectR 1 true 5 senderA Option.none false Option.none ChannelState0).2
    (by intro e he; simp [ChannelState0] at he) rfl

/-- C3 amended-claim witness: a list of only unknown names fails with the
empty-fields error; a list mixing a known and an unknown name succeeds. -/
theorem C3_amended_witness :
    connectR 1 true 5 senderA (some ["nope"]) false Option.none ChannelState0 =
      (Except.error ConnectError.emptyFields, ChannelState0) ∧
    (connectR 1 true 5 senderA (some ["a_key", "nonexistent"]) false Option.none
      ChannelState0).1 = Except.ok () := by
  constructor
  · exact (C3_amended_unknown_names_silently_ignored 1 5 senderA ["nope"] Option.none
      ChannelState0 rfl).1
      (by
        intro f hf
        rw [show senderA.meta_get_fields = [fieldA] from rfl] at hf
        rw [List.mem_singleton.mp hf]
        decide)
  · exact (C3_amended_unknown_names_silently_ignored 1 5 senderA ["a_key", "nonexistent"]
      Option.none ChannelState0 rfl).2
      ⟨fieldA, by simp [senderA], by decide⟩
      (by
        intro f hf _
        rw [show senderA.meta_get_fields = [fieldA] from rfl] at hf
        rw [List.mem_singleton.mp hf]
        decide)
